import Mathlib

/-
  Verification development for the cloudbuildval abstract interpreter
  (absint.go, main.go, sbom helpers).

  Strings are modelled as lists of characters (`Str`), so that every
  operation the Go code performs (strings.Split, strings.Trim,
  strings.ReplaceAll, filepath.SplitList) is an executable structural
  function that the kernel can evaluate.  Go runtime panics
  (out-of-range indexing, nil-pointer dereference) are modelled as
  explicit `Fault` values, distinct from ordinary returned errors.
-/

namespace CloudbuildVal

/-- Strings are modelled as lists of characters. -/
abbrev Str := List Char

/-- Conversion from a Lean string literal to the character-list model. -/
def str (s : String) : Str := s.data

/-- Model of Go strings.Split with a single-character separator:
splitting the empty string yields one empty field, and n separators
yield n+1 fields. -/
def splitOnChar (c : Char) : Str → List Str
  | [] => [[]]
  | x :: xs =>
    let r := splitOnChar c xs
    if x = c then [] :: r
    else
      match r with
      | [] => [[x]]
      | h :: t => (x :: h) :: t

/-- Model of Go strings.Trim with a single-character cutset: drop the
character from both ends. -/
def trimChar (c : Char) (s : Str) : Str :=
  ((s.dropWhile (· = c)).reverse.dropWhile (· = c)).reverse

/-- Model of Go filepath.SplitList on Unix: the empty string gives an
empty list, otherwise split on the list separator character `:` —
not on the path separator `/`. -/
def splitList (p : Str) : List Str :=
  if p = [] then [] else splitOnChar ':' p

/-- Fuelled model of Go strings.ReplaceAll: replace non-overlapping
occurrences of `k` by `v` scanning left to right, without rescanning
replaced text.  An empty `k` interleaves `v` around every character,
as in Go.  Fuel is an upper bound on the scan length and never runs
out for the fuel chosen in `replaceAll`. -/
def replaceAllF : Nat → Str → Str → Str → Str
  | 0, s, _, _ => s
  | fuel + 1, s, k, v =>
    if k = [] then v ++ s.flatMap (fun c => c :: v)
    else
      match s with
      | [] => []
      | c :: rest =>
        if k.isPrefixOf (c :: rest) then v ++ replaceAllF fuel ((c :: rest).drop k.length) k v
        else c :: replaceAllF fuel rest k v

/-- Model of Go strings.ReplaceAll. -/
def replaceAll (s k v : Str) : Str := replaceAllF (s.length + 1) s k v

/-- The simulated directory tree: each node owns a list of
(name, child) pairs, mirroring the Go children map. -/
inductive Tree where
  | node (children : List (Str × Tree))

/-- Children of a node. -/
def Tree.children : Tree → List (Str × Tree)
  | .node cs => cs

/-- Lookup of a child by name in a children list (Go map read). -/
def lookupChildren : List (Str × Tree) → Str → Option Tree
  | [], _ => none
  | (n, t) :: rest, name => if n = name then some t else lookupChildren rest name

/-- The subtree reached from `t` by following the given path of child
names, if every name exists. -/
def subtree? : Tree → List Str → Option Tree
  | t, [] => some t
  | t, n :: rest =>
    match lookupChildren t.children n with
    | none => none
    | some c => subtree? c rest

/-- True when the given path of child names exists in the tree. -/
def containsPath (t : Tree) (p : List Str) : Bool :=
  (subtree? t p).isSome

/-- Go map assignment parent.children[name] = fresh node: replace an
existing entry or append a new one. -/
def setChild : List (Str × Tree) → Str → List (Str × Tree)
  | [], name => [(name, .node [])]
  | (n, t) :: rest, name =>
    if n = name then (name, .node []) :: rest
    else (n, t) :: setChild rest name

mutual

/-- Insert a fresh empty child named `name` at the node reached by
`path` (the Go newPathtree(name, cwd) call, where cwd sits at `path`).
An invalid path leaves the tree unchanged; the interpreter never
produces one. -/
def setChildAt : Tree → List Str → Str → Tree
  | .node cs, [], name => .node (setChild cs name)
  | .node cs, p :: rest, name =>
    .node (updateChild cs p rest name)

/-- Helper of `setChildAt`: rebuild the children list, descending into
the entry named `p`. -/
def updateChild : List (Str × Tree) → Str → List Str → Str → List (Str × Tree)
  | [], _, _, _ => []
  | (n, t) :: cs, p, rest, name =>
    if n = p then (n, setChildAt t rest name) :: cs
    else (n, t) :: updateChild cs p rest name

end

/-- Faults distinguish the ways a call can go wrong in the Go code:
an ordinary returned error, an out-of-range slice index (runtime
panic), a nil-pointer dereference (runtime panic), and exhaustion of
the bookkeeping fuel of the fuelled recursions (never reached for the
fuel the wrappers choose). -/
inductive Fault where
  | goErr
  | oob
  | nilDeref
  | fuelOut
deriving DecidableEq

/-- One step of the cloudbuild configuration (main.go `Step`):
image reference, id, optional entrypoint override, arguments,
optional working directory, and the unexported cmd field that starts
out empty. -/
structure Step where
  Name : Str
  ID : Str := []
  Entrypoint : Str := []
  Args : List Str := []
  Dir : Str := []
  cmd : Str := []
deriving DecidableEq

/-- The Config part of one `docker inspect` record (main.go
`Inspection`): declared entrypoint list and declared command list. -/
structure Inspection where
  Entrypoint : List Str := []
  Cmd : List Str := []
deriving DecidableEq

/-- Package metadata in the decoded SBOM: either a dpkg database entry
carrying its installed-file paths, or any other metadata kind
(skipped by the entrypoint search). -/
inductive PkgMetadata where
  | dpkg (files : List Str)
  | other
deriving DecidableEq

/-- A package of the decoded SBOM. -/
structure Pkg where
  metadata : PkgMetadata
deriving DecidableEq

/-- A decoded SBOM is its package list. -/
abbrev SBOM := List Pkg

/-- findEntrypoint (sbom helpers): true when some package exposes dpkg
metadata whose file list contains exactly the wanted path. -/
def findEntrypoint (b : SBOM) (want : Str) : Bool :=
  b.any fun p =>
    match p.metadata with
    | .dpkg files => files.any (· = want)
    | .other => false

/-- External collaborators of the run: docker pull (success flag),
docker inspect (decoded inspection records, or failure), and the
SBOM generation + decode pipeline (decoded SBOM, or failure), each
keyed by the image reference. -/
structure Env where
  pull : Str → Bool
  inspect : Str → Option (List Inspection)
  sbomGen : Str → Option SBOM

/-- Events recording the externally observable actions of a run:
collaborator invocations keyed by image reference, the simulation of a
step's declared working directory (by step index), and the entrypoint
verification of a step (by step index). -/
inductive Event where
  | pullEv (n : Str)
  | inspectEv (n : Str)
  | sbomEv (n : Str)
  | setDirEv (i : Nat)
  | checkEv (i : Nat)
deriving DecidableEq

/-- The interpreter state (absint.go `State`): the directory tree, the
current position as a path from the root (`none` models a nil cwd
pointer), the image cache `containers`, and the replacement table.
The replacement table is an ordered association list because the Go
code iterates a map in an unspecified order; the order is an explicit
model input. -/
structure St where
  tree : Tree
  cwd : Option (List Str)
  containers : List (Str × SBOM)
  replacements : List (Str × Str)

/-- Go map read on the containers cache. -/
def lookupCache : List (Str × SBOM) → Str → Option SBOM
  | [], _ => none
  | (n, b) :: rest, name => if n = name then some b else lookupCache rest name

/-- Go map assignment on the containers cache. -/
def insertCache : List (Str × SBOM) → Str → SBOM → List (Str × SBOM)
  | [], name, b => [(name, b)]
  | (n, t) :: rest, name, b =>
    if n = name then (name, b) :: rest
    else (n, t) :: insertCache rest name b

/-- NewState: a root with one child "workspace", cwd at the root. -/
def newState (replacements : List (Str × Str)) : St :=
  { tree := .node [(str "workspace", .node [])]
    cwd := some []
    containers := []
    replacements := replacements }

/-- replaceStr: fold strings.ReplaceAll over the replacement table in
its iteration order. -/
def replaceStr (repl : List (Str × Str)) (s : Str) : Str :=
  repl.foldl (fun acc kv => replaceAll acc kv.1 kv.2) s

/-- stringReplacement: apply replaceStr to the name, the entrypoint,
every argument and the directory of a step (not to its id or cmd). -/
def stringReplacement (repl : List (Str × Str)) (s : Step) : Step :=
  { s with
    Name := replaceStr repl s.Name
    Entrypoint := replaceStr repl s.Entrypoint
    Args := s.Args.map (replaceStr repl)
    Dir := replaceStr repl s.Dir }

/-- The Go statement `if len(step.cmd) > 0 then step.cmd =
inspection[0].Config.Cmd[0]`: the Cmd read is guarded by the length
of the (always initially empty) cmd field, and indexes Cmd[0]
unconditionally when it runs. -/
def inspectSetCmd (i0 : Inspection) (step : Step) : Except Fault Step :=
  if step.cmd.length > 0 then
    match i0.Cmd.head? with
    | none => .error .oob
    | some c => .ok { step with cmd := c }
  else .ok step

/-- The Go statement setting the entrypoint from the declared list
when the override is empty: Entrypoint[0] is indexed unconditionally,
an out-of-range panic when the declared list is empty. -/
def inspectSetEntrypoint (i0 : Inspection) (step : Step) : Except Fault Step :=
  if step.Entrypoint = [] then
    match i0.Entrypoint.head? with
    | none => .error .oob
    | some e => .ok { step with Entrypoint := e }
  else .ok step

/-- The Go statement falling back to step.cmd when the entrypoint is
still empty. -/
def inspectFallbackCmd (step : Step) : Step :=
  if step.Entrypoint = [] then { step with Entrypoint := step.cmd } else step

/-- inspectImage: consume the inspect collaborator's output for the
step's image.  Requires exactly one inspection record, then applies
the three sequential assignments of the Go code and errors when the
entrypoint is still empty at the end. -/
def inspectImage (env : Env) (step : Step) : Except Fault Step :=
  match env.inspect step.Name with
  | none => .error .goErr
  | some insp =>
    match insp with
    | [i0] =>
      match inspectSetCmd i0 step with
      | .error f => .error f
      | .ok step1 =>
        match inspectSetEntrypoint i0 step1 with
        | .error f => .error f
        | .ok step2 =>
          let step3 := inspectFallbackCmd step2
          if step3.Entrypoint = [] then .error .goErr else .ok step3
    | _ => .error .goErr

/-- workspaceDir: split the raw directory string on `/` and dispatch
on the first segment.  An empty first segment resets cwd to the root;
`.` is a no-op; `..` moves to the parent (reading cwd.parent panics
when cwd is already nil, and yields the nil parent when cwd is the
root); any other first segment re-bases cwd to root.children
["workspace"] when setWorkspace is true and keeps the whole segment
list.  Returns the updated state, the remaining segments, and a
possible panic. -/
def workspaceDir (st : St) (raw : Str) (setWorkspace : Bool) :
    St × List Str × Option Fault :=
  match splitOnChar '/' raw with
  | [] => (st, [], none)
  | d0 :: rest =>
    if d0 = [] then ({ st with cwd := some [] }, rest, none)
    else if d0 = str "." then (st, rest, none)
    else if d0 = str ".." then
      match st.cwd with
      | none => (st, rest, some .nilDeref)
      | some [] => ({ st with cwd := none }, rest, none)
      | some p => ({ st with cwd := some p.dropLast }, rest, none)
    else
      if setWorkspace then
        match lookupChildren st.tree.children (str "workspace") with
        | none => ({ st with cwd := none }, d0 :: rest, none)
        | some _ => ({ st with cwd := some [str "workspace"] }, d0 :: rest, none)
      else (st, d0 :: rest, none)

/-- The descending loop of cd: enter the same-named child for each
segment, mutating cwd along the way; a missing child is a returned
error and a nil cwd is a panic, in both cases keeping the mutations
already made. -/
def cdGo : St → List Str → St × Option Fault
  | st, [] => (st, none)
  | st, x :: rest =>
    match st.cwd with
    | none => (st, some .nilDeref)
    | some path =>
      match subtree? st.tree (path ++ [x]) with
      | none => (st, some .goErr)
      | some _ => cdGo { st with cwd := some (path ++ [x]) } rest

/-- cd: read args[0] (an out-of-range panic when args is empty), split
it with filepath.SplitList — the OS list separator `:`, not the path
separator — and descend segment by segment. -/
def cd (st : St) (args : List Str) : St × Option Fault :=
  match args with
  | [] => (st, some .oob)
  | p :: _ => cdGo st (splitList p)

mutual

/-- Fuelled model of mkdir: trim line breaks from the arguments, scan
for a literal -p, read the last argument as the target path (an
out-of-range panic when there are no arguments), split it via
workspaceDir, and walk the segments. -/
def mkdirF : Nat → St → List Str → St × Option Fault
  | 0, st, _ => (st, some .fuelOut)
  | fuel + 1, st, args =>
    let args := args.map (trimChar (Char.ofNat 10))
    let dashp := args.contains (str "-p")
    match args.getLast? with
    | none => (st, some .oob)
    | some p =>
      match workspaceDir st p false with
      | (st1, _, some f) => (st1, some f)
      | (st1, l, none) => mkdirLoop fuel dashp st1 l

/-- The segment walk of mkdir.  On the last segment, create the child
under cwd when absent (reading cwd.children panics when cwd is nil)
and return.  On an earlier segment, cd into it; on a returned cd
error, fail without -p, or with -p run mkdir and cd on the single
segment discarding their returned errors (panics still propagate),
then continue. -/
def mkdirLoop : Nat → Bool → St → List Str → St × Option Fault
  | 0, _, st, _ => (st, some .fuelOut)
  | _ + 1, _, st, [] => (st, none)
  | _ + 1, _, st, [x] =>
    match st.cwd with
    | none => (st, some .nilDeref)
    | some path =>
      match subtree? st.tree (path ++ [x]) with
      | some _ => (st, none)
      | none => ({ st with tree := setChildAt st.tree path x }, none)
  | fuel + 1, dashp, st, x :: rest =>
    match cd st [x] with
    | (st1, none) => mkdirLoop fuel dashp st1 rest
    | (st1, some .goErr) =>
      if dashp then
        match mkdirF fuel st1 [x] with
        | (st2, some .oob) => (st2, some .oob)
        | (st2, some .nilDeref) => (st2, some .nilDeref)
        | (st2, some .fuelOut) => (st2, some .fuelOut)
        | (st2, _) =>
          match cd st2 [x] with
          | (st3, some .oob) => (st3, some .oob)
          | (st3, some .nilDeref) => (st3, some .nilDeref)
          | (st3, some .fuelOut) => (st3, some .fuelOut)
          | (st3, _) => mkdirLoop fuel dashp st3 rest
      else (st1, some .goErr)
    | (st1, some f) => (st1, some f)

end

/-- Fuel bound for mkdir: ample for the at most two levels of
recursion and the per-segment walk the Go code performs. -/
def mkdirFuel (args : List Str) : Nat :=
  2 * (args.foldl (fun n a => n + a.length) 0) + 8

/-- mkdir with its fuel chosen large enough never to run out. -/
def mkdir (st : St) (args : List Str) : St × Option Fault :=
  mkdirF (mkdirFuel args) st args

/-- The per-segment body of setDir: mkdir then cd on each remaining
segment, discarding their returned errors (setDir returns nothing in
Go) while panics abort. -/
def setDirLoop : St → List Str → St × Option Fault
  | st, [] => (st, none)
  | st, d :: rest =>
    match mkdir st [d] with
    | (st1, some .oob) => (st1, some .oob)
    | (st1, some .nilDeref) => (st1, some .nilDeref)
    | (st1, some .fuelOut) => (st1, some .fuelOut)
    | (st1, _) =>
      match cd st1 [d] with
      | (st2, some .oob) => (st2, some .oob)
      | (st2, some .nilDeref) => (st2, some .nilDeref)
      | (st2, some .fuelOut) => (st2, some .fuelOut)
      | (st2, _) => setDirLoop st2 rest

/-- setDir: nothing to do for an empty Dir, otherwise workspaceDir
with setWorkspace=true followed by mkdir+cd on every remaining
segment. -/
def setDir (st : St) (s : Step) : St × Option Fault :=
  if s.Dir = [] then (st, none)
  else
    match workspaceDir st s.Dir true with
    | (st1, _, some f) => (st1, some f)
    | (st1, dir, none) => setDirLoop st1 dir

/-- The two directory verbs of the dispatch table dirCmds. -/
inductive Verb where
  | mkdirV
  | cdV
deriving DecidableEq

/-- dirCmds: the fixed verb dispatch table; every other verb maps to
nothing. -/
def dirCmds (v : Str) : Option Verb :=
  if v = str "mkdir" then some .mkdirV
  else if v = str "cd" then some .cdV
  else none

/-- A thunk: the dispatched verb (none for an unrecognized one) bound
to its positional arguments. -/
structure Thunk0 where
  fn : Option Verb
  args : List Str
deriving DecidableEq

/-- Tokenize one command line on single spaces into a verb and its
arguments and look the verb up in dirCmds. -/
def mkThunks (lines : List Str) : List Thunk0 :=
  lines.map fun line =>
    match splitOnChar ' ' line with
    | [] => { fn := none, args := [] }
    | v :: rest => { fn := dirCmds v, args := rest }

/-- parseShellArgs: read args[0] (an out-of-range panic when args is
empty); when it is the literal -c, read args[1] (an out-of-range
panic when absent) and split it into one line per line break,
otherwise treat every element of args as one command line. -/
def parseShellArgs (args : List Str) : Except Fault (List Thunk0) :=
  match args with
  | [] => .error .oob
  | a0 :: rest =>
    if a0 = str "-c" then
      match rest.head? with
      | none => .error .oob
      | some a1 => .ok (mkThunks (splitOnChar (Char.ofNat 10) a1))
    else .ok (mkThunks (a0 :: rest))

/-- isShell: the fixed set of recognized shell entrypoints. -/
def isShell (entrypoint : Str) : Bool :=
  entrypoint = str "/bin/bash" || entrypoint = str "/bin/sh" || entrypoint = str "sh"

/-- Apply one dispatched verb. -/
def applyVerb (v : Verb) (st : St) (args : List Str) : St × Option Fault :=
  match v with
  | .mkdirV => mkdir st args
  | .cdV => cd st args

/-- Run the thunks in order: skip thunks with no verb, stop at the
first fault. -/
def runThunks : St → List Thunk0 → St × Option Fault
  | st, [] => (st, none)
  | st, t :: ts =>
    match t.fn with
    | none => runThunks st ts
    | some v =>
      match applyVerb v st t.args with
      | (st1, none) => runThunks st1 ts
      | (st1, some f) => (st1, some f)

/-- execute: simulate the declared directory first, then, for a shell
entrypoint, parse the arguments and run the resulting thunks. -/
def execute (st : St) (s : Step) : St × Option Fault :=
  match setDir st s with
  | (st1, some f) => (st1, some f)
  | (st1, none) =>
    if isShell s.Entrypoint then
      match parseShellArgs s.Args with
      | .error f => (st1, some f)
      | .ok ts => runThunks st1 ts
    else (st1, none)

/-- The thunks a step dispatches: the parse result, or none when
parsing itself panics. -/
def dispatchedThunks (s : Step) : List Thunk0 :=
  match parseShellArgs s.Args with
  | .ok ts => ts
  | .error _ => []

/-- checkEntrypoint: look the image's SBOM up in the cache (a nil
SBOM would be dereferenced inside findEntrypoint) and search it for
the step's entrypoint; a miss is a returned error. -/
def checkEntrypoint (st : St) (s : Step) : Option Fault :=
  match lookupCache st.containers s.Name with
  | none => some .nilDeref
  | some bom => if findEntrypoint bom s.Entrypoint then none else some .goErr

/-- Phase 1 of ensureSteps: per step, substitute macros, skip images
already cached, otherwise pull, inspect (mutating the step in place)
and compile the SBOM into the cache; the first collaborator failure
aborts.  Returns the substituted (and possibly resolved) steps, the
final state, the emitted events and the fault. -/
def phase1 (env : Env) : St → List Step → List Step × St × List Event × Option Fault
  | st, [] => ([], st, [], none)
  | st, s :: rest =>
    let s1 := stringReplacement st.replacements s
    match lookupCache st.containers s1.Name with
    | some _ =>
      match phase1 env st rest with
      | (rs, st1, tr, f) => (s1 :: rs, st1, tr, f)
    | none =>
      if env.pull s1.Name then
        match inspectImage env s1 with
        | .error f => (s1 :: rest, st, [.pullEv s1.Name, .inspectEv s1.Name], some f)
        | .ok s2 =>
          match env.sbomGen s2.Name with
          | none =>
            (s2 :: rest, st,
             [.pullEv s1.Name, .inspectEv s1.Name, .sbomEv s1.Name], some .goErr)
          | some bom =>
            let st1 := { st with containers := insertCache st.containers s2.Name bom }
            match phase1 env st1 rest with
            | (rs, st2, tr, f) =>
              (s2 :: rs, st2,
               .pullEv s1.Name :: .inspectEv s1.Name :: .sbomEv s1.Name :: tr, f)
      else (s1 :: rest, st, [.pullEv s1.Name], some .goErr)

/-- The path-check loop of ensureSteps: setDir on every step with a
declared directory, in order, before any entrypoint verification.
Only a panic aborts (setDir returns nothing in Go). -/
def pathLoop : St → Nat → List Step → St × List Event × Option Fault
  | st, _, [] => (st, [], none)
  | st, i, s :: rest =>
    if s.Dir = [] then pathLoop st (i + 1) rest
    else
      match setDir st s with
      | (st1, none) =>
        match pathLoop st1 (i + 1) rest with
        | (st2, tr, f) => (st2, .setDirEv i :: tr, f)
      | (st1, some f) => (st1, [.setDirEv i], some f)

/-- The entrypoint-check loop of ensureSteps: checkEntrypoint on every
step in order, its returned error discarded; only the nil-SBOM panic
aborts. -/
def checkLoop (st : St) : Nat → List Step → List Event × Option Fault
  | _, [] => ([], none)
  | i, s :: rest =>
    match checkEntrypoint st s with
    | some .nilDeref => ([.checkEv i], some .nilDeref)
    | _ =>
      match checkLoop st (i + 1) rest with
      | (tr, f) => (.checkEv i :: tr, f)

/-- ensureSteps: phase 1 over all steps, then the path-check loop,
then the entrypoint-check loop whose errors are discarded. -/
def ensureSteps (env : Env) (st : St) (steps : List Step) :
    List Step × St × List Event × Option Fault :=
  match phase1 env st steps with
  | (steps1, st1, tr1, some f) => (steps1, st1, tr1, some f)
  | (steps1, st1, tr1, none) =>
    match pathLoop st1 0 steps1 with
    | (st2, tr2, some f) => (steps1, st2, tr1 ++ tr2, some f)
    | (st2, tr2, none) =>
      match checkLoop st2 0 steps1 with
      | (tr3, f) => (steps1, st2, tr1 ++ tr2 ++ tr3, f)

/-- The execution loop of main: execute every step in order, stopping
at the first fault; the directory simulation of a step with a
declared directory is recorded again as a setDir event. -/
def execLoop : St → Nat → List Step → St × List Event × Option Fault
  | st, _, [] => (st, [], none)
  | st, i, s :: rest =>
    match execute st s with
    | (st1, none) =>
      match execLoop st1 (i + 1) rest with
      | (st2, tr, f) =>
        (st2, (if s.Dir = [] then tr else .setDirEv i :: tr), f)
    | (st1, some f) =>
      (st1, (if s.Dir = [] then [] else [.setDirEv i]), some f)

/-- The whole run of main after configuration decoding: ensureSteps,
then the execution loop; any fault aborts. -/
def runMain (env : Env) (st : St) (steps : List Step) :
    St × List Event × Option Fault :=
  match ensureSteps env st steps with
  | (_, st1, tr1, some f) => (st1, tr1, some f)
  | (steps1, st1, tr1, none) =>
    match execLoop st1 0 steps1 with
    | (st2, tr2, f) => (st2, tr1 ++ tr2, f)

/-- Event classifier: collaborator-acquisition events (pull, inspect,
SBOM generation). -/
def isAcqEv : Event → Bool
  | .pullEv _ => true
  | .inspectEv _ => true
  | .sbomEv _ => true
  | _ => false

/-- Event classifier: directory-simulation events. -/
def isSetDirEv : Event → Bool
  | .setDirEv _ => true
  | _ => false

/-- Event classifier: entrypoint-verification events. -/
def isCheckEv : Event → Bool
  | .checkEv _ => true
  | _ => false

/-- Number of steps that declare an explicit working directory. -/
def dirCount (steps : List Step) : Nat :=
  (steps.filter (fun s => !decide (s.Dir = []))).length

/-- Keys of a containers cache. -/
def cacheKeys (c : List (Str × SBOM)) : List Str := c.map Prod.fst

/-- The post-substitution image references of a step list under a
given replacement order. -/
def substNames (repl : List (Str × Str)) (steps : List Step) : List Str :=
  steps.map (fun s => replaceStr repl s.Name)

/-- A fresh state whose working position is the initial workspace
root. -/
def wsState : St := { newState [] with cwd := some [str "workspace"] }

/-- The step arguments of the shell-interpretation test of the spec. -/
def args5 : List Str := [str "-c", str "mkdir -p foo\ncd foo\nmkdir bar"]

/-- The three operations the shell interpreter extracts from
`args5`. -/
def ts5 : List Thunk0 :=
  [{ fn := some .mkdirV, args := [str "-p", str "foo"] },
   { fn := some .cdV, args := [str "foo"] },
   { fn := some .mkdirV, args := [str "bar"] }]

/-- A state whose root has one child `a` with one child `b`. -/
def stA : St :=
  { tree := .node [(str "a", .node [(str "b", .node [])])]
    cwd := some []
    containers := []
    replacements := [] }

/-- Collaborators for the entrypoint-not-found run: pull succeeds,
inspection declares entrypoint list ["/bin/x"], and the manifest
holds a single dpkg package whose only file is "/other". -/
def env1 : Env :=
  { pull := fun _ => true
    inspect := fun _ => some [{ Entrypoint := [str "/bin/x"], Cmd := [] }]
    sbomGen := fun _ => some [{ metadata := .dpkg [str "/other"] }] }

/-- One step with an explicit override "/bin/true" that no package of
the manifest provides. -/
def steps1 : List Step := [{ Name := str "img", Entrypoint := str "/bin/true" }]

/-- Collaborators whose manifest does contain the override, for runs
that must pass entrypoint verification. -/
def env6 : Env :=
  { pull := fun _ => true
    inspect := fun _ => some [{ Entrypoint := [str "/bin/x"], Cmd := [] }]
    sbomGen := fun _ => some [{ metadata := .dpkg [str "/bin/true"] }] }

/-- One step with an explicit working directory `d`. -/
def steps6 : List Step := [{ Name := str "img", Entrypoint := str "/bin/true", Dir := str "d" }]

/-- Two steps naming the same image reference. -/
def steps7 : List Step :=
  [{ Name := str "img", Entrypoint := str "/bin/true" },
   { Name := str "img", Entrypoint := str "/bin/true" }]

/-- Collaborators for the command-list fallback: empty override, a
declared entrypoint list whose first element is the empty string, and
a non-empty declared command list. -/
def env2 : Env :=
  { pull := fun _ => true
    inspect := fun _ => some [{ Entrypoint := [str ""], Cmd := [str "/bin/echo"] }]
    sbomGen := fun _ => some [] }

/-- Collaborators whose inspection declares an empty entrypoint list
and an empty command list. -/
def env3 : Env :=
  { pull := fun _ => true
    inspect := fun _ => some [{ Entrypoint := [], Cmd := [] }]
    sbomGen := fun _ => some [] }

/-- A replacement table in one iteration order: one macro's value
contains the other macro's token. -/
def o1 : List (Str × Str) := [(str "$BRANCH_NAME", str "$TAG_NAME"), (str "$TAG_NAME", str "v1")]

/-- The same replacement table in the opposite iteration order. -/
def o2 : List (Str × Str) := [(str "$TAG_NAME", str "v1"), (str "$BRANCH_NAME", str "$TAG_NAME")]

/-- A step whose name is the branch-name macro token. -/
def step8 : Step := { Name := str "$BRANCH_NAME" }

/-- A shell step whose argument list is just the inline-script flag,
with no script following it. -/
def step10 : Step := { Name := str "s", Entrypoint := str "/bin/sh", Args := [str "-c"] }

/-- A shell step with an inline script whose every dispatched command
line carries a positional argument. -/
def step10ok : Step :=
  { Name := str "s", Entrypoint := str "/bin/sh", Args := [str "-c", str "mkdir -p foo\ncd foo"] }

/-- Splitting on a character that does not occur returns the whole
string as the single field. -/
theorem splitOnChar_no_sep (c : Char) : ∀ l : Str, c ∉ l → splitOnChar c l = [l]
  | [], _ => rfl
  | x :: xs, h => by
    have hx : ¬ x = c := fun e => h (by subst e; exact List.mem_cons_self x xs)
    have hxs : c ∉ xs := fun m => h (List.mem_cons_of_mem _ m)
    simp [splitOnChar, hx, splitOnChar_no_sep c xs hxs]

/-- C1: a run in which a step's manifest contains no package whose
installed-file list includes the effective entrypoint nevertheless
completes successfully, because ensureSteps discards the error
returned by checkEntrypoint.  The manifest of steps1's image holds no
package providing "/bin/true", yet runMain finishes with no fault. -/
theorem C1_missing_entrypoint_run_completes :
    findEntrypoint [{ metadata := .dpkg [str "/other"] }] (str "/bin/true") = false ∧
    checkEntrypoint (ensureSteps env1 (newState []) steps1).2.1
      (stringReplacement [] (steps1.get ⟨0, by decide⟩)) = some .goErr ∧
    (runMain env1 (newState []) steps1).2.2 = none := by
  refine ⟨rfl, rfl, rfl⟩

/-- C2: with an empty override, a declared entrypoint list whose
first element is the empty string and a non-empty declared command
list, the claimed fallback would resolve the effective entrypoint to
"/bin/echo" (the first declared command); the code instead fails with
the no-entrypoint error, because the command list is only read under
the dead guard len(step.cmd) > 0. -/
theorem C2_cmd_fallback_never_engages :
    env2.inspect (str "img") = some [{ Entrypoint := [str ""], Cmd := [str "/bin/echo"] }] ∧
    inspectImage env2 { Name := str "img" } = .error .goErr :=
  ⟨rfl, rfl⟩

/-- C3: with the override, the declared entrypoint list and the
declared command list all empty, resolution does not fail gracefully:
it indexes element 0 of the empty declared entrypoint list, an
out-of-range panic. -/
theorem C3_all_empty_resolution_panics :
    env3.inspect (str "img") = some [{ Entrypoint := [], Cmd := [] }] ∧
    inspectImage env3 { Name := str "img" } = .error .oob :=
  ⟨rfl, rfl⟩

/-- C4 counterexample: navigation does not split on the path
separator and is not atomic.  In a tree root/a/b, cd "a/b" fails with
an error although the children a then b both exist (the code splits
with filepath.SplitList, i.e. on the list separator, so it looks for
one child literally named "a/b"); and cd "a:c" fails after entering
a, leaving the position at a rather than where it was before the
call. -/
theorem C4_counterexample :
    containsPath stA.tree [str "a", str "b"] = true ∧
    stA.cwd = some [] ∧
    (cd stA [str "a/b"]).2 = some .goErr ∧
    (cd stA [str "a:c"]).2 = some .goErr ∧
    (cd stA [str "a:c"]).1.cwd = some [str "a"] := by
  refine ⟨rfl, rfl, rfl, rfl, rfl⟩

/-- C4 amended: cd splits its argument on the OS list separator, so a
path free of ':' is one single segment; for such a path a failing
call (missing child, or nil position) returns its fault with the
position exactly as before the call. -/
theorem C4_single_segment_failure_is_atomic (st : St) (args : List Str) (p : Str)
    (hp : args.head? = some p) (hc : (':' : Char) ∉ p) :
    (cd st args).2 ≠ none → (cd st args).1 = st := by
  intro hf
  cases args with
  | nil => simp at hp
  | cons a rest =>
    simp only [List.head?, Option.some.injEq] at hp
    cases hp
    by_cases hp0 : p = []
    · subst hp0
      simp [cd, splitList, cdGo] at hf
    · have hsplit : splitList p = [p] := by
        simp only [splitList, hp0, if_neg hp0]
        exact splitOnChar_no_sep ':' p hc
      simp only [cd, hsplit]
      simp only [cd, hsplit] at hf
      cases hcwd : st.cwd with
      | none => simp [cdGo, hcwd]
      | some path =>
        cases hsub : subtree? st.tree (path ++ [p]) with
        | none => simp [cdGo, hcwd, hsub]
        | some t => simp [cdGo, hcwd, hsub] at hf

/-- C4 witness: a failing single-segment cd in stA leaves the state
unchanged. -/
theorem C4_witness : (cd stA [str "c"]).1 = stA :=
  C4_single_segment_failure_is_atomic stA [str "c"] (str "c") rfl (by decide) (by decide)

/-- C5: shell interpretation of entrypoint "/bin/sh" with args
["-c", "mkdir -p foo\ncd foo\nmkdir bar"] yields exactly the three
operations ts5, and applying them in order to a fresh workspace root
produces a tree containing workspace/foo/bar with the final working
position at workspace/foo. -/
theorem C5_shell_interpretation_three_ops :
    isShell (str "/bin/sh") = true ∧
    parseShellArgs args5 = .ok ts5 ∧
    ts5.length = 3 ∧
    (runThunks wsState ts5).2 = none ∧
    containsPath (runThunks wsState ts5).1.tree [str "workspace", str "foo", str "bar"] = true ∧
    (runThunks wsState ts5).1.cwd = some [str "workspace", str "foo"] := by
  refine ⟨rfl, rfl, rfl, rfl, rfl, rfl⟩

/-- C6 counterexample: in a successful one-step run whose step
declares directory d, the event trace shows the directory simulation
happening twice for step 0 (once in the path-check loop of
ensureSteps, once again in execute) and the first simulation
preceding the entrypoint verification of step 0 rather than following
it. -/
theorem C6_counterexample :
    (runMain env6 (newState []) steps6).2.1 =
      [.pullEv (str "img"), .inspectEv (str "img"), .sbomEv (str "img"),
       .setDirEv 0, .checkEv 0, .setDirEv 0] ∧
    (runMain env6 (newState []) steps6).2.1.count (.setDirEv 0) = 2 ∧
    (runMain env6 (newState []) steps6).2.2 = none := by
  refine ⟨rfl, by decide, rfl⟩

/-- C8 counterexample: macro substitution is not order-independent.
The tables o1 and o2 hold the same entries (they are permutations of
each other), yet substituting the step named "$BRANCH_NAME" yields
different steps under the two iteration orders. -/
theorem C8_counterexample :
    o1.Perm o2 ∧ stringReplacement o1 step8 ≠ stringReplacement o2 step8 := by
  refine ⟨by decide, by decide⟩

/-- C8 amended: substitution is a deterministic function of the
table's iteration order, but distinct orders of the same table can
substitute differently when one macro's replacement value contains
another macro's token: under o1 the name becomes "v1", under the
permuted o2 it becomes "$TAG_NAME". -/
theorem C8_order_dependent :
    o1.Perm o2 ∧
    (stringReplacement o1 step8).Name = str "v1" ∧
    (stringReplacement o2 step8).Name = str "$TAG_NAME" := by
  refine ⟨by decide, rfl, rfl⟩

/-- C9: processing ".." while the current position is already the
root is not treated as an error: workspaceDir reports no fault and
sets the position to the nil parent, after which any child lookup is
a nil-pointer dereference. -/
theorem C9_dotdot_at_root_yields_nil_position :
    (workspaceDir (newState []) (str "..") false).2.2 = none ∧
    (workspaceDir (newState []) (str "..") false).1.cwd = none ∧
    (cd (workspaceDir (newState []) (str "..") false).1 [str "x"]).2 = some .nilDeref := by
  refine ⟨rfl, rfl, rfl⟩

/-- C10 counterexample: the precondition stated by the claim (shell
entrypoint, non-empty args, every dispatched cd/mkdir line has a
positional argument) holds for step10, whose args are just ["-c"],
yet execute performs an out-of-range read: parseShellArgs also reads
args[1] unconditionally once args[0] is "-c". -/
theorem C10_counterexample :
    isShell step10.Entrypoint = true ∧
    step10.Args ≠ [] ∧
    (∀ t ∈ dispatchedThunks step10, t.fn ≠ none → t.args ≠ []) ∧
    (execute (newState []) step10).2 = some .oob := by
  refine ⟨rfl, by decide, by decide, rfl⟩

/-- The descending loop of cd never performs an out-of-range read. -/
theorem cdGo_no_oob : ∀ (l : List Str) (st : St), (cdGo st l).2 ≠ some .oob
  | [], st => by simp [cdGo]
  | x :: rest, st => by
    cases hcwd : st.cwd with
    | none => simp [cdGo, hcwd]
    | some path =>
      cases hsub : subtree? st.tree (path ++ [x]) with
      | none => simp [cdGo, hcwd, hsub]
      | some t => simpa [cdGo, hcwd, hsub] using cdGo_no_oob rest _

/-- cd with a non-empty argument list never performs an out-of-range
read. -/
theorem cd_no_oob (st : St) (args : List Str) (h : args ≠ []) :
    (cd st args).2 ≠ some .oob := by
  cases args with
  | nil => exact absurd rfl h
  | cons p rest => simpa [cd] using cdGo_no_oob (splitList p) st

/-- workspaceDir never performs an out-of-range read. -/
theorem workspaceDir_no_oob (st : St) (raw : Str) (b : Bool) :
    (workspaceDir st raw b).2.2 ≠ some .oob := by
  unfold workspaceDir
  cases hsplit : splitOnChar '/' raw with
  | nil => simp
  | cons d0 rest =>
    by_cases h1 : d0 = []
    · simp [h1]
    · by_cases h2 : d0 = str "."
      · simp [h2, (by decide : ¬(str "." = []))]
      · by_cases h3 : d0 = str ".."
        · cases hcwd : st.cwd with
          | none =>
            simp [h3, hcwd, (by decide : ¬(str ".." = [])), (by decide : ¬(str ".." = str "."))]
          | some p =>
            cases p <;>
              simp [h3, hcwd, (by decide : ¬(str ".." = [])), (by decide : ¬(str ".." = str "."))]
        · cases b with
          | false => simp [h1, h2, h3]
          | true => cases lookupChildren st.tree.children (str "workspace") <;> simp [h1, h2, h3]

/-- mkdirF on a non-empty argument list, and mkdirLoop always, never
perform an out-of-range read, whatever the fuel. -/
theorem mkdir_no_oob_all : ∀ fuel : Nat,
    (∀ st args, args ≠ [] → (mkdirF fuel st args).2 ≠ some .oob) ∧
    (∀ dashp st l, (mkdirLoop fuel dashp st l).2 ≠ some .oob) := by
  intro fuel
  induction fuel with
  | zero =>
    constructor
    · intro st args _
      simp [mkdirF]
    · intro dashp st l
      simp [mkdirLoop]
  | succ n ih =>
    obtain ⟨ihF, ihL⟩ := ih
    constructor
    · intro st args hne
      have hmapne : args.map (trimChar (Char.ofNat 10)) ≠ [] := by
        simpa using hne
      cases hl : (args.map (trimChar (Char.ofNat 10))).getLast? with
      | none => exact absurd (List.getLast?_eq_none_iff.mp hl) hmapne
      | some p =>
        have hwd := workspaceDir_no_oob st p false
        cases hw : workspaceDir st p false with
        | mk st1 z =>
          cases z with
          | mk l f? =>
            rw [hw] at hwd
            cases f? with
            | none => simpa [mkdirF, hl, hw] using ihL _ st1 l
            | some f => simpa [mkdirF, hl, hw] using hwd
    · intro dashp st l
      match l with
      | [] => simp [mkdirLoop]
      | [x] =>
        cases hcwd : st.cwd with
        | none => simp [mkdirLoop, hcwd]
        | some path =>
          cases hsub : subtree? st.tree (path ++ [x]) <;> simp [mkdirLoop, hcwd, hsub]
      | x :: y :: rest =>
        have hcd := cd_no_oob st [x] (by simp)
        cases h1 : cd st [x] with
        | mk st1 f? =>
          rw [h1] at hcd
          cases f? with
          | none => simpa [mkdirLoop, h1] using ihL dashp st1 (y :: rest)
          | some f =>
            cases f with
            | oob => exact absurd rfl hcd
            | nilDeref => simp [mkdirLoop, h1]
            | fuelOut => simp [mkdirLoop, h1]
            | goErr =>
              cases hdp : dashp with
              | false => simp [mkdirLoop, h1, hdp]
              | true =>
                have hmk := ihF st1 [x] (by simp)
                cases h2 : mkdirF n st1 [x] with
                | mk st2 g? =>
                  rw [h2] at hmk
                  have hcd2 := cd_no_oob st2 [x] (by simp)
                  cases h3 : cd st2 [x] with
                  | mk st3 e? =>
                    rw [h3] at hcd2
                    cases g? with
                    | none =>
                      cases e? with
                      | none => simpa [mkdirLoop, h1, hdp, h2, h3] using ihL dashp st3 (y :: rest)
                      | some e =>
                        cases e with
                        | oob => exact absurd rfl hcd2
                        | nilDeref => simp [mkdirLoop, h1, hdp, h2, h3]
                        | fuelOut => simp [mkdirLoop, h1, hdp, h2, h3]
                        | goErr => simpa [mkdirLoop, h1, hdp, h2, h3] using ihL dashp st3 (y :: rest)
                    | some g =>
                      cases g with
                      | oob => exact absurd rfl hmk
                      | nilDeref => simp [mkdirLoop, h1, hdp, h2]
                      | fuelOut => simp [mkdirLoop, h1, hdp, h2]
                      | goErr =>
                        cases e? with
                        | none => simpa [mkdirLoop, h1, hdp, h2, h3] using ihL dashp st3 (y :: rest)
                        | some e =>
                          cases e with
                          | oob => exact absurd rfl hcd2
                          | nilDeref => simp [mkdirLoop, h1, hdp, h2, h3]
                          | fuelOut => simp [mkdirLoop, h1, hdp, h2, h3]
                          | goErr => simpa [mkdirLoop, h1, hdp, h2, h3] using ihL dashp st3 (y :: rest)

/-- mkdir with a non-empty argument list never performs an
out-of-range read. -/
theorem mkdir_no_oob (st : St) (args : List Str) (h : args ≠ []) :
    (mkdir st args).2 ≠ some .oob :=
  (mkdir_no_oob_all (mkdirFuel args)).1 st args h

/-- The setDir segment walk never performs an out-of-range read. -/
theorem setDirLoop_no_oob : ∀ (l : List Str) (st : St), (setDirLoop st l).2 ≠ some .oob
  | [], st => by simp [setDirLoop]
  | d :: rest, st => by
    have hmk := mkdir_no_oob st [d] (by simp)
    cases h1 : mkdir st [d] with
    | mk st1 f? =>
      rw [h1] at hmk
      have hcd := cd_no_oob st1 [d] (by simp)
      cases h2 : cd st1 [d] with
      | mk st2 e? =>
        rw [h2] at hcd
        cases f? with
        | none =>
          cases e? with
          | none => simpa [setDirLoop, h1, h2] using setDirLoop_no_oob rest st2
          | some e =>
            cases e with
            | oob => exact absurd rfl hcd
            | nilDeref => simp [setDirLoop, h1, h2]
            | fuelOut => simp [setDirLoop, h1, h2]
            | goErr => simpa [setDirLoop, h1, h2] using setDirLoop_no_oob rest st2
        | some f =>
          cases f with
          | oob => exact absurd rfl hmk
          | nilDeref => simp [setDirLoop, h1]
          | fuelOut => simp [setDirLoop, h1]
          | goErr =>
            cases e? with
            | none => simpa [setDirLoop, h1, h2] using setDirLoop_no_oob rest st2
            | some e =>
              cases e with
              | oob => exact absurd rfl hcd
              | nilDeref => simp [setDirLoop, h1, h2]
              | fuelOut => simp [setDirLoop, h1, h2]
              | goErr => simpa [setDirLoop, h1, h2] using setDirLoop_no_oob rest st2

/-- setDir never performs an out-of-range read. -/
theorem setDir_no_oob (st : St) (s : Step) : (setDir st s).2 ≠ some .oob := by
  unfold setDir
  by_cases hdir : s.Dir = []
  · simp [hdir]
  · have hwd := workspaceDir_no_oob st s.Dir true
    cases hw : workspaceDir st s.Dir true with
    | mk st1 z =>
      cases z with
      | mk dir f? =>
        rw [hw] at hwd
        cases f? with
        | none => simpa [hdir, hw] using setDirLoop_no_oob dir st1
        | some f => simpa [hdir, hw] using hwd

/-- Running thunks whose recognized verbs all carry a positional
argument never performs an out-of-range read. -/
theorem runThunks_no_oob :
    ∀ (ts : List Thunk0) (st : St),
      (∀ t ∈ ts, t.fn ≠ none → t.args ≠ []) → (runThunks st ts).2 ≠ some .oob
  | [], st, _ => by simp [runThunks]
  | t :: ts, st, h => by
    cases hfn : t.fn with
    | none =>
      simpa [runThunks, hfn] using
        runThunks_no_oob ts st (fun u hu => h u (List.mem_cons_of_mem _ hu))
    | some v =>
      have hargs : t.args ≠ [] := h t (List.mem_cons_self _ _) (by simp [hfn])
      have hv : (applyVerb v st t.args).2 ≠ some .oob := by
        cases v with
        | mkdirV => exact mkdir_no_oob st t.args hargs
        | cdV => exact cd_no_oob st t.args hargs
      cases hav : applyVerb v st t.args with
      | mk st1 f? =>
        rw [hav] at hv
        cases f? with
        | none =>
          simpa [runThunks, hfn, hav] using
            runThunks_no_oob ts st1 (fun u hu => h u (List.mem_cons_of_mem _ hu))
        | some f => simpa [runThunks, hfn, hav] using hv

/-- parseShellArgs succeeds whenever args is non-empty and, when
args[0] is the inline-script flag, args has a second element. -/
theorem parseShellArgs_ok (args : List Str) (hne : args ≠ [])
    (hc : args.head? = some (str "-c") → 2 ≤ args.length) :
    ∃ ts, parseShellArgs args = .ok ts := by
  cases args with
  | nil => exact absurd rfl hne
  | cons a0 rest =>
    by_cases ha : a0 = str "-c"
    · cases rest with
      | nil =>
        have := hc (by simp [ha])
        simp at this
      | cons a1 rest2 =>
        exact ⟨mkThunks (splitOnChar (Char.ofNat 10) a1), by simp [parseShellArgs, ha]⟩
    · exact ⟨mkThunks (a0 :: rest), by simp [parseShellArgs, ha]⟩

/-- C10 amended: for a shell step, execute performs no out-of-range
read provided args is non-empty, args has a second element whenever
args[0] is "-c" (the read of args[1] the claim omits), and every
command line dispatched to cd or mkdir carries at least one
positional argument. -/
theorem C10_no_oob_under_strengthened_precondition (st : St) (s : Step)
    (hsh : isShell s.Entrypoint = true)
    (hne : s.Args ≠ [])
    (hc : s.Args.head? = some (str "-c") → 2 ≤ s.Args.length)
    (hargs : ∀ t ∈ dispatchedThunks s, t.fn ≠ none → t.args ≠ []) :
    (execute st s).2 ≠ some .oob := by
  obtain ⟨ts, hts⟩ := parseShellArgs_ok s.Args hne hc
  have hdisp : dispatchedThunks s = ts := by simp [dispatchedThunks, hts]
  have hsd := setDir_no_oob st s
  cases hw : setDir st s with
  | mk st1 f? =>
    rw [hw] at hsd
    cases f? with
    | some f => simpa [execute, hw] using hsd
    | none =>
      have := runThunks_no_oob ts st1 (fun u hu => hargs u (hdisp ▸ hu))
      simpa [execute, hw, hsh, hts] using this

/-- C10 witness: the strengthened precondition holds for step10ok and
execute performs no out-of-range read on it. -/
theorem C10_witness : (execute (newState []) step10ok).2 ≠ some .oob :=
  C10_no_oob_under_strengthened_precondition (newState []) step10ok
    (by decide) (by decide) (by decide) (by decide)

/-- Every event phase 1 emits is a collaborator-acquisition event. -/
theorem phase1_events_acq (env : Env) :
    ∀ (steps : List Step) (st : St) (e : Event),
      e ∈ (phase1 env st steps).2.2.1 → isAcqEv e = true := by
  intro steps
  induction steps with
  | nil => intro st e he; simp [phase1] at he
  | cons s rest ih =>
    intro st e he
    cases hlk : lookupCache st.containers (stringReplacement st.replacements s).Name with
    | some b =>
      simp only [phase1, hlk] at he
      exact ih st e he
    | none =>
      cases hpull : env.pull (stringReplacement st.replacements s).Name with
      | false =>
        simp only [phase1, hlk, hpull] at he
        simp only [Bool.false_eq_true, if_false, List.mem_singleton] at he
        subst he; rfl
      | true =>
        cases hins : inspectImage env (stringReplacement st.replacements s) with
        | error f =>
          simp only [phase1, hlk, hpull, hins, if_true, List.mem_cons,
            List.not_mem_nil, or_false] at he
          rcases he with h | h <;> (subst h; rfl)
        | ok s2 =>
          cases hsb : env.sbomGen s2.Name with
          | none =>
            simp only [phase1, hlk, hpull, hins, hsb, if_true, List.mem_cons,
              List.not_mem_nil, or_false] at he
            rcases he with h | h | h <;> (subst h; rfl)
          | some bom =>
            simp only [phase1, hlk, hpull, hins, hsb, if_true, List.mem_cons] at he
            rcases he with h | h | h | h
            · subst h; rfl
            · subst h; rfl
            · subst h; rfl
            · exact ih _ e h

/-- Every event the path-check loop emits is a directory-simulation
event. -/
theorem pathLoop_events :
    ∀ (steps : List Step) (st : St) (i : Nat) (e : Event),
      e ∈ (pathLoop st i steps).2.1 → isSetDirEv e = true := by
  intro steps
  induction steps with
  | nil => intro st i e he; simp [pathLoop] at he
  | cons s rest ih =>
    intro st i e he
    by_cases hdir : s.Dir = []
    · simp only [pathLoop, hdir, if_true] at he
      exact ih st (i + 1) e he
    · cases hsd : setDir st s with
      | mk st1 f? =>
        cases f? with
        | none =>
          simp only [pathLoop, hdir, if_false, hsd, List.mem_cons] at he
          rcases he with h | h
          · subst h; rfl
          · exact ih st1 (i + 1) e h
        | some f =>
          simp only [pathLoop, hdir, if_false, hsd, List.mem_singleton] at he
          subst he; rfl

/-- Every event the entrypoint-check loop emits is a verification
event. -/
theorem checkLoop_events :
    ∀ (steps : List Step) (st : St) (i : Nat) (e : Event),
      e ∈ (checkLoop st i steps).1 → isCheckEv e = true := by
  intro steps
  induction steps with
  | nil => intro st i e he; simp [checkLoop] at he
  | cons s rest ih =>
    intro st i e he
    simp only [checkLoop] at he
    split at he
    · simp only [List.mem_singleton] at he
      subst he; rfl
    · simp only [List.mem_cons] at he
      rcases he with h | h
      · subst h; rfl
      · exact ih st (i + 1) e h

/-- Every event the execution loop emits is a directory-simulation
event. -/
theorem execLoop_events :
    ∀ (steps : List Step) (st : St) (i : Nat) (e : Event),
      e ∈ (execLoop st i steps).2.1 → isSetDirEv e = true := by
  intro steps
  induction steps with
  | nil => intro st i e he; simp [execLoop] at he
  | cons s rest ih =>
    intro st i e he
    cases hex : execute st s with
    | mk st1 f? =>
      cases f? with
      | none =>
        simp only [execLoop, hex] at he
        by_cases hdir : s.Dir = []
        · simp only [hdir, if_true] at he
          exact ih st1 (i + 1) e he
        · simp only [hdir, if_false, List.mem_cons] at he
          rcases he with h | h
          · subst h; rfl
          · exact ih st1 (i + 1) e h
      | some f =>
        simp only [execLoop, hex] at he
        by_cases hdir : s.Dir = []
        · simp [hdir] at he
        · simp only [hdir, if_false, List.mem_singleton] at he
          subst he; rfl

/-- On a successful path-check loop, exactly one directory-simulation
event is emitted per step with an explicit working directory. -/
theorem pathLoop_length :
    ∀ (steps : List Step) (st : St) (i : Nat),
      (pathLoop st i steps).2.2 = none →
      (pathLoop st i steps).2.1.length = dirCount steps := by
  intro steps
  induction steps with
  | nil => intro st i _; simp [pathLoop, dirCount]
  | cons s rest ih =>
    intro st i hf
    by_cases hdir : s.Dir = []
    · simp only [pathLoop, hdir, if_true] at hf ⊢
      rw [ih st (i + 1) hf]
      simp [dirCount, List.filter_cons, hdir]
    · cases hsd : setDir st s with
      | mk st1 f? =>
        cases f? with
        | none =>
          simp only [pathLoop, hdir, if_false, hsd] at hf ⊢
          simp only [List.length_cons] at hf ⊢
          rw [ih st1 (i + 1) hf]
          simp [dirCount, List.filter_cons, hdir]
        | some f =>
          simp only [pathLoop, hdir, if_false, hsd] at hf
          simp at hf
    
/-- On a successful execution loop, exactly one directory-simulation
event is emitted per step with an explicit working directory. -/
theorem execLoop_length :
    ∀ (steps : List Step) (st : St) (i : Nat),
      (execLoop st i steps).2.2 = none →
      (execLoop st i steps).2.1.length = dirCount steps := by
  intro steps
  induction steps with
  | nil => intro st i _; simp [execLoop, dirCount]
  | cons s rest ih =>
    intro st i hf
    cases hex : execute st s with
    | mk st1 f? =>
      cases f? with
      | none =>
        simp only [execLoop, hex] at hf ⊢
        by_cases hdir : s.Dir = []
        · simp only [hdir, if_true] at hf ⊢
          rw [ih st1 (i + 1) hf]
          simp [dirCount, List.filter_cons, hdir]
        · simp only [hdir, if_false, List.length_cons] at hf ⊢
          rw [ih st1 (i + 1) hf]
          simp [dirCount, List.filter_cons, hdir]
      | some f =>
        simp only [execLoop, hex] at hf
        simp at hf

/-- C6 amended: in every successful run the trace decomposes as
acquisition events for all steps, then the path-check loop's
directory simulations (one per step with an explicit directory), then
all entrypoint verifications, then the execution phase's directory
simulations (one more per step with an explicit directory) — so the
directory descent of an explicit-directory step is simulated twice,
once before any entrypoint verification and once during execution,
while no directory simulation precedes the acquisition phase. -/
theorem C6_trace_decomposition (env : Env) (st : St) (steps : List Step)
    (hok : (runMain env st steps).2.2 = none) :
    ∃ steps1 tA tS tC tE,
      (ensureSteps env st steps).1 = steps1 ∧
      (runMain env st steps).2.1 = tA ++ tS ++ tC ++ tE ∧
      (∀ e ∈ tA, isAcqEv e = true) ∧
      (∀ e ∈ tS, isSetDirEv e = true) ∧
      (∀ e ∈ tC, isCheckEv e = true) ∧
      (∀ e ∈ tE, isSetDirEv e = true) ∧
      tS.length = dirCount steps1 ∧
      tE.length = dirCount steps1 := by
  cases h1 : phase1 env st steps with
  | mk steps1 z1 =>
    cases z1 with
    | mk st1 z2 =>
      cases z2 with
      | mk tr1 f1 =>
        cases f1 with
        | some f => simp [runMain, ensureSteps, h1] at hok
        | none =>
          cases h2 : pathLoop st1 0 steps1 with
          | mk st2 z3 =>
            cases z3 with
            | mk tr2 f2 =>
              cases f2 with
              | some f => simp [runMain, ensureSteps, h1, h2] at hok
              | none =>
                cases h3 : checkLoop st2 0 steps1 with
                | mk tr3 f3 =>
                  cases f3 with
                  | some f => simp [runMain, ensureSteps, h1, h2, h3] at hok
                  | none =>
                    cases h4 : execLoop st2 0 steps1 with
                    | mk st3 z4 =>
                      cases z4 with
                      | mk tr4 f4 =>
                        have hf4 : f4 = none := by
                          simpa [runMain, ensureSteps, h1, h2, h3, h4] using hok
                        refine ⟨steps1, tr1, tr2, tr3, tr4, ?_, ?_, ?_, ?_, ?_, ?_, ?_, ?_⟩
                        · simp [ensureSteps, h1, h2, h3]
                        · simp [runMain, ensureSteps, h1, h2, h3, h4, List.append_assoc]
                        · intro e he
                          exact phase1_events_acq env steps st e (by rw [h1]; exact he)
                        · intro e he
                          exact pathLoop_events steps1 st1 0 e (by rw [h2]; exact he)
                        · intro e he
                          exact checkLoop_events steps1 st2 0 e (by rw [h3]; exact he)
                        · intro e he
                          exact execLoop_events steps1 st2 0 e (by rw [h4]; exact he)
                        · have hlen := pathLoop_length steps1 st1 0 (by rw [h2])
                          rw [h2] at hlen
                          exact hlen
                        · have hlen := execLoop_length steps1 st2 0 (by rw [h4]; exact hf4)
                          rw [h4] at hlen
                          exact hlen

/-- C6 witness: the decomposition applies to a concrete successful
run with an explicit-directory step. -/
theorem C6_witness :
    (runMain env6 (newState []) steps6).2.2 = none ∧
    (∃ steps1 tA tS tC tE,
      (ensureSteps env6 (newState []) steps6).1 = steps1 ∧
      (runMain env6 (newState []) steps6).2.1 = tA ++ tS ++ tC ++ tE ∧
      (∀ e ∈ tA, isAcqEv e = true) ∧
      (∀ e ∈ tS, isSetDirEv e = true) ∧
      (∀ e ∈ tC, isCheckEv e = true) ∧
      (∀ e ∈ tE, isSetDirEv e = true) ∧
      tS.length = dirCount steps1 ∧
      tE.length = dirCount steps1) :=
  ⟨rfl, C6_trace_decomposition env6 (newState []) steps6 rfl⟩

/-- Looking a key up after a cache insertion. -/
theorem lookupCache_insert :
    ∀ (c : List (Str × SBOM)) (n m : Str) (b : SBOM),
      lookupCache (insertCache c n b) m = if n = m then some b else lookupCache c m
  | [], n, m, b => rfl
  | (k, v) :: rest, n, m, b => by
    by_cases hkn : k = n
    · subst hkn
      simp only [insertCache, if_pos rfl, lookupCache]
      by_cases hm : k = m <;> simp [lookupCache, hm]
    · simp only [insertCache, if_neg hkn, lookupCache]
      by_cases hm : k = m
      · subst hm
        have : ¬n = k := fun h => hkn h.symm
        simp [lookupCache, this]
      · simp [lookupCache, hm, lookupCache_insert rest n m b]

/-- A failed cache lookup means the key is absent. -/
theorem lookupCache_eq_none :
    ∀ (c : List (Str × SBOM)) (m : Str), lookupCache c m = none ↔ m ∉ cacheKeys c
  | [], m => by simp [lookupCache, cacheKeys]
  | (k, v) :: rest, m => by
    by_cases hm : k = m
    · subst hm
      simp [lookupCache, cacheKeys]
    · have hmk : ¬m = k := fun h => hm h.symm
      simp only [lookupCache, if_neg hm, cacheKeys, List.map_cons, List.mem_cons, not_or]
      rw [lookupCache_eq_none rest m]
      simp [cacheKeys, hmk]

/-- Inserting an absent key appends it to the cache keys. -/
theorem insertCache_keys :
    ∀ (c : List (Str × SBOM)) (n : Str) (b : SBOM),
      lookupCache c n = none → cacheKeys (insertCache c n b) = cacheKeys c ++ [n]
  | [], n, b, _ => rfl
  | (k, v) :: rest, n, b, h => by
    have hk : ¬k = n := by
      intro e
      subst e
      simp [lookupCache] at h
    simp only [insertCache, if_neg hk, cacheKeys, List.map, List.cons_append,
      List.cons.injEq, true_and]
    exact insertCache_keys rest n b (by simpa [lookupCache, hk] using h)

/-- A list containing no occurrence of an element counts it zero
times. -/
theorem count_zero_of_kind (l : List Event) (e : Event) (p : Event → Bool)
    (hall : ∀ x ∈ l, p x = true) (he : p e = false) : l.count e = 0 := by
  refine List.count_eq_zero.mpr fun hmem => ?_
  rw [hall e hmem] at he
  exact Bool.noConfusion he

/-- The guarded Cmd assignment never changes the image reference. -/
theorem inspectSetCmd_name (i0 : Inspection) (s x : Step)
    (h : inspectSetCmd i0 s = .ok x) : x.Name = s.Name := by
  unfold inspectSetCmd at h
  split at h
  · split at h
    · exact Except.noConfusion h
    · injection h with h2; subst h2; rfl
  · injection h with h2; subst h2; rfl

/-- The declared-entrypoint assignment never changes the image
reference. -/
theorem inspectSetEntrypoint_name (i0 : Inspection) (s x : Step)
    (h : inspectSetEntrypoint i0 s = .ok x) : x.Name = s.Name := by
  unfold inspectSetEntrypoint at h
  split at h
  · split at h
    · exact Except.noConfusion h
    · injection h with h2; subst h2; rfl
  · injection h with h2; subst h2; rfl

/-- The cmd fallback never changes the image reference. -/
theorem inspectFallbackCmd_name (s : Step) : (inspectFallbackCmd s).Name = s.Name := by
  unfold inspectFallbackCmd
  split <;> rfl

/-- inspectImage never changes the image reference of a step. -/
theorem inspectImage_name (env : Env) (s s2 : Step)
    (h : inspectImage env s = .ok s2) : s2.Name = s.Name := by
  unfold inspectImage at h
  split at h
  · exact Except.noConfusion h
  · split at h
    · rename_i i0 heq0
      cases h1 : inspectSetCmd i0 s with
      | error f => rw [h1] at h; exact Except.noConfusion h
      | ok step1 =>
        rw [h1] at h
        dsimp only at h
        cases h2 : inspectSetEntrypoint i0 step1 with
        | error f => rw [h2] at h; exact Except.noConfusion h
        | ok step2 =>
          rw [h2] at h
          dsimp only at h
          split at h
          · exact Except.noConfusion h
          · injection h with h3
            subst h3
            exact (inspectFallbackCmd_name step2).trans
              ((inspectSetEntrypoint_name i0 step1 step2 h2).trans
                (inspectSetCmd_name i0 s step1 h1))
    · exact Except.noConfusion h

/-- Phase 1 invokes the inspect and SBOM collaborators exactly once
for every reference present among the substituted step names and not
already cached, and never for any other reference. -/
theorem phase1_acq_once (env : Env) (r : Str) :
    ∀ (steps : List Step) (st : St),
      (phase1 env st steps).2.2.2 = none →
      ((phase1 env st steps).2.2.1.count (.inspectEv r) =
        (if (lookupCache st.containers r).isSome then 0
         else if r ∈ substNames st.replacements steps then 1 else 0)) ∧
      ((phase1 env st steps).2.2.1.count (.sbomEv r) =
        (if (lookupCache st.containers r).isSome then 0
         else if r ∈ substNames st.replacements steps then 1 else 0)) := by
  intro steps
  induction steps with
  | nil => intro st _; simp [phase1, substNames]
  | cons s rest ih =>
    intro st hok
    have hsn : (stringReplacement st.replacements s).Name = replaceStr st.replacements s.Name := rfl
    cases hlk : lookupCache st.containers (stringReplacement st.replacements s).Name with
    | some b =>
      simp only [phase1, hlk] at hok ⊢
      obtain ⟨ih1, ih2⟩ := ih st hok
      by_cases hr : (lookupCache st.containers r).isSome
      · simp only [hr, if_true] at ih1 ih2
        simp [hr, ih1, ih2]
      · by_cases hrn : r = replaceStr st.replacements s.Name
        · exfalso
          rw [hsn] at hlk
          rw [hrn] at hr
          simp [hlk] at hr
        · simp only [hr, if_false] at ih1 ih2
          have hmem : (r ∈ substNames st.replacements (s :: rest)) =
              (r ∈ substNames st.replacements rest) := by
            simp [substNames, hrn]
          simp [hr, hmem, ih1, ih2]
    | none =>
      cases hpull : env.pull (stringReplacement st.replacements s).Name with
      | false => simp [phase1, hlk, hpull] at hok
      | true =>
        cases hins : inspectImage env (stringReplacement st.replacements s) with
        | error f => simp [phase1, hlk, hpull, hins] at hok
        | ok s2 =>
          have hname : s2.Name = replaceStr st.replacements s.Name :=
            (inspectImage_name env _ s2 hins).trans hsn
          cases hsb : env.sbomGen s2.Name with
          | none => simp [phase1, hlk, hpull, hins, hsb] at hok
          | some bom =>
            simp only [phase1, hlk, hpull, hins, hsb, if_true] at hok ⊢
            have hok2 : (phase1 env
                { st with containers := insertCache st.containers s2.Name bom } rest).2.2.2 =
                none := hok
            obtain ⟨ih1, ih2⟩ := ih _ hok2
            have hlook : lookupCache
                (insertCache st.containers s2.Name bom) r =
                if s2.Name = r then some bom else lookupCache st.containers r :=
              lookupCache_insert st.containers s2.Name r bom
            rw [hname] at ih1 ih2 hlook
            rw [hname, hsn]
            by_cases hr : (lookupCache st.containers r).isSome
            · have hne : ¬r = replaceStr st.replacements s.Name := by
                intro e
                rw [hsn] at hlk
                rw [e, hlk] at hr
                exact Bool.noConfusion hr
              have hne2 : ¬replaceStr st.replacements s.Name = r := fun e => hne e.symm
              have hins2 : (lookupCache
                  (insertCache st.containers (replaceStr st.replacements s.Name) bom) r).isSome =
                  true := by
                rw [hlook, if_neg hne2]
                exact hr
              simp only [hins2] at ih1 ih2
              simp only [if_true, eq_self_iff_true] at ih1 ih2
              simp [hr, List.count_cons, ih1, ih2, hne2]
            · by_cases hrn : r = replaceStr st.replacements s.Name
              · rw [← hrn] at ih1 ih2 hlook
                rw [← hrn]
                have hins2 : (lookupCache
                    (insertCache st.containers r bom) r).isSome = true := by
                  rw [hlook, if_pos rfl]
                  rfl
                simp only [hins2] at ih1 ih2
                simp only [if_true, eq_self_iff_true] at ih1 ih2
                have hmem : r ∈ substNames st.replacements (s :: rest) := by
                  simp [substNames, hrn]
                simp [hr, List.count_cons, ih1, ih2, hmem]
              · have hne2 : ¬replaceStr st.replacements s.Name = r := fun e => hrn e.symm
                have hsame : (lookupCache
                    (insertCache st.containers (replaceStr st.replacements s.Name) bom) r).isSome =
                    (lookupCache st.containers r).isSome := by
                  rw [hlook, if_neg hne2]
                rw [hsame] at ih1 ih2
                simp [hr, List.count_cons, ih1, ih2, hne2, substNames, hrn]

/-- Phase 1 never duplicates a cache key. -/
theorem phase1_keys_nodup (env : Env) :
    ∀ (steps : List Step) (st : St),
      (cacheKeys st.containers).Nodup →
      (cacheKeys (phase1 env st steps).2.1.containers).Nodup := by
  intro steps
  induction steps with
  | nil => intro st h; simpa [phase1] using h
  | cons s rest ih =>
    intro st h
    cases hlk : lookupCache st.containers (stringReplacement st.replacements s).Name with
    | some b =>
      simp only [phase1, hlk]
      exact ih st h
    | none =>
      cases hpull : env.pull (stringReplacement st.replacements s).Name with
      | false => simpa [phase1, hlk, hpull] using h
      | true =>
        cases hins : inspectImage env (stringReplacement st.replacements s) with
        | error f => simpa [phase1, hlk, hpull, hins] using h
        | ok s2 =>
          cases hsb : env.sbomGen s2.Name with
          | none => simpa [phase1, hlk, hpull, hins, hsb] using h
          | some bom =>
            simp only [phase1, hlk, hpull, hins, hsb, if_true]
            refine ih _ ?_
            have hname : s2.Name = (stringReplacement st.replacements s).Name :=
              inspectImage_name env _ s2 hins
            have hlk2 : lookupCache st.containers s2.Name = none := by
              rw [hname]; exact hlk
            have hkeys := insertCache_keys st.containers s2.Name bom hlk2
            have hnotmem : s2.Name ∉ cacheKeys st.containers :=
              (lookupCache_eq_none st.containers s2.Name).mp hlk2
            simp only [hkeys]
            simpa [List.nodup_append] using ⟨h, hnotmem⟩

/-- C7: when two or more steps carry the same post-substitution image
reference, the metadata (inspect) and manifest (SBOM) collaborators
are each invoked exactly once in total for that reference over the
whole successful run, and the image cache holds each distinct
reference at most once. -/
theorem C7_acquisition_once (env : Env) (repl : List (Str × Str)) (steps : List Step) (r : Str)
    (hdup : 2 ≤ (substNames repl steps).count r)
    (hok : (runMain env (newState repl) steps).2.2 = none) :
    (runMain env (newState repl) steps).2.1.count (.inspectEv r) = 1 ∧
    (runMain env (newState repl) steps).2.1.count (.sbomEv r) = 1 ∧
    (cacheKeys (phase1 env (newState repl) steps).2.1.containers).Nodup := by
  have hmem : r ∈ substNames repl steps := by
    by_contra hno
    rw [List.count_eq_zero_of_not_mem hno] at hdup
    omega
  cases h1 : phase1 env (newState repl) steps with
  | mk steps1 z1 =>
    cases z1 with
    | mk st1 z2 =>
      cases z2 with
      | mk tr1 f1 =>
        cases f1 with
        | some f => simp [runMain, ensureSteps, h1] at hok
        | none =>
          have hcounts := phase1_acq_once env r steps (newState repl) (by rw [h1])
          rw [h1] at hcounts
          simp only [newState, lookupCache, Option.isSome_none, Bool.false_eq_true,
            if_false, hmem, if_true] at hcounts
          obtain ⟨hc1, hc2⟩ := hcounts
          have hnodup := phase1_keys_nodup env steps (newState repl) (by simp [newState, cacheKeys])
          cases h2 : pathLoop st1 0 steps1 with
          | mk st2 z3 =>
            cases z3 with
            | mk tr2 f2 =>
              cases f2 with
              | some f => simp [runMain, ensureSteps, h1, h2] at hok
              | none =>
                cases h3 : checkLoop st2 0 steps1 with
                | mk tr3 f3 =>
                  cases f3 with
                  | some f => simp [runMain, ensureSteps, h1, h2, h3] at hok
                  | none =>
                    cases h4 : execLoop st2 0 steps1 with
                    | mk st3 z4 =>
                      cases z4 with
                      | mk tr4 f4 =>
                        have htr : (runMain env (newState repl) steps).2.1 =
                            tr1 ++ tr2 ++ tr3 ++ tr4 := by
                          simp [runMain, ensureSteps, h1, h2, h3, h4, List.append_assoc]
                        have hz2 : ∀ e : Event, isSetDirEv e = false →
                            tr2.count e = 0 :=
                          fun e hef => count_zero_of_kind tr2 e isSetDirEv
                            (fun x hx => pathLoop_events steps1 st1 0 x (by rw [h2]; exact hx))
                            hef
                        have hz3 : ∀ e : Event, isCheckEv e = false →
                            tr3.count e = 0 :=
                          fun e hef => count_zero_of_kind tr3 e isCheckEv
                            (fun x hx => checkLoop_events steps1 st2 0 x (by rw [h3]; exact hx))
                            hef
                        have hz4 : ∀ e : Event, isSetDirEv e = false →
                            tr4.count e = 0 :=
                          fun e hef => count_zero_of_kind tr4 e isSetDirEv
                            (fun x hx => execLoop_events steps1 st2 0 x (by rw [h4]; exact hx))
                            hef
                        refine ⟨?_, ?_, ?_⟩
                        · rw [htr]
                          simp [List.count_append, hc1,
                            hz2 (.inspectEv r) rfl,
                            hz3 (.inspectEv r) rfl,
                            hz4 (.inspectEv r) rfl]
                        · rw [htr]
                          simp [List.count_append, hc2,
                            hz2 (.sbomEv r) rfl,
                            hz3 (.sbomEv r) rfl,
                            hz4 (.sbomEv r) rfl]
                        · rw [h1] at hnodup
                          exact hnodup

/-- C7 witness: two steps with the same reference, acquired once. -/
theorem C7_witness :
    2 ≤ (substNames [] steps7).count (str "img") ∧
    ((runMain env6 (newState []) steps7).2.1.count (.inspectEv (str "img")) = 1 ∧
     (runMain env6 (newState []) steps7).2.1.count (.sbomEv (str "img")) = 1 ∧
     (cacheKeys (phase1 env6 (newState []) steps7).2.1.containers).Nodup) :=
  ⟨by decide, C7_acquisition_once env6 [] steps7 (str "img") (by decide) rfl⟩

end CloudbuildVal
